import Mathlib

/-!
Verification of the leaderboard's metrics aggregation and filtering engine
(`src/App.js`).  The dataset is a nested JavaScript object
model → configuration → question → list of scored responses; JavaScript
objects preserve insertion order and never hold duplicate keys, so each
level is embedded as an association list with `String` keys.  JavaScript
numbers are embedded as exact rationals (`ℚ`); response counts as `ℕ`.
-/

/-- A scored response record, as stored in `results.json`
(`answer_num`, `answer`, `coherence_score`, `embedding_dissimilarity_score`). -/
structure Response where
  answer_num : Nat
  answer : String
  coherence_score : ℚ
  embedding_dissimilarity_score : ℚ
deriving DecidableEq

/-- question → ordered responses (one configuration's branch). -/
abbrev QuestionMap := List (String × List Response)

/-- configuration → question map (one model's branch); `filteredData` has the
same shape. -/
abbrev ParamMap := List (String × QuestionMap)

/-- model → configuration map: the whole `sampleData.models` object. -/
abbrev Dataset := List (String × ParamMap)

/-- One row of the leaderboard, as pushed onto `metrics` in `modelsMetrics`
(`App.js` lines 153-159). -/
structure ModelSummary where
  modelName : String
  totalResponses : Nat
  totalCoherence : String
  totalDissimilarity : String
  filteredData : ParamMap
deriving DecidableEq

/-- The inclusion rule of `App.js` lines 131-134:
`selectedQuestions.length === 0 || selectedQuestions.includes(question)`. -/
def included (selectedQuestions : List String) (question : String) : Bool :=
  selectedQuestions.isEmpty || selectedQuestions.contains question

/-- JavaScript object assignment `m[k] = v`: replace the value when the key is
present (keeping its position), otherwise append the key in insertion order. -/
def setKey {α : Type} (m : List (String × α)) (k : String) (v : α) :
    List (String × α) :=
  match m with
  | [] => [(k, v)]
  | (k', v') :: rest =>
    if k' = k then (k', v) :: rest else (k', v') :: setKey rest k v

/-- `App.js` lines 135-138:
`if (!filteredData[paramKey]) filteredData[paramKey] = {};`
`filteredData[paramKey][question] = responses;`. -/
def setIn (fd : ParamMap) (paramKey question : String)
    (responses : List Response) : ParamMap :=
  match fd with
  | [] => [(paramKey, [(question, responses)])]
  | (pk, qm) :: rest =>
    if pk = paramKey then (pk, setKey qm question responses) :: rest
    else (pk, qm) :: setIn rest paramKey question responses

/-- The per-model mutable accumulator of `modelsMetrics`
(`totalResponses`, `sumCoherence`, `sumDissimilarity`, `filteredData`). -/
structure AggAcc where
  totalResponses : Nat
  sumCoherence : ℚ
  sumDissimilarity : ℚ
  filteredData : ParamMap

/-- Sum of the `coherence_score` fields of a response list. -/
def respCoherenceSum (rs : List Response) : ℚ :=
  (rs.map (fun r => r.coherence_score)).sum

/-- Sum of the `embedding_dissimilarity_score` fields of a response list. -/
def respDissimSum (rs : List Response) : ℚ :=
  (rs.map (fun r => r.embedding_dissimilarity_score)).sum

/-- Body of the question loop (`App.js` lines 129-146): when the question is
included, record the response list in `filteredData` and accumulate the
response count and both score sums via `responses.forEach`. -/
def stepQuestion (selectedQuestions : List String) (paramKey : String)
    (acc : AggAcc) (entry : String × List Response) : AggAcc :=
  if included selectedQuestions entry.1 then
    { totalResponses := acc.totalResponses + entry.2.length
      sumCoherence := acc.sumCoherence + respCoherenceSum entry.2
      sumDissimilarity := acc.sumDissimilarity + respDissimSum entry.2
      filteredData := setIn acc.filteredData paramKey entry.1 entry.2 }
  else acc

/-- Body of the configuration loop (`App.js` line 128). -/
def stepParam (selectedQuestions : List String) (acc : AggAcc)
    (entry : String × QuestionMap) : AggAcc :=
  entry.2.foldl (stepQuestion selectedQuestions entry.1) acc

/-- `Math.round`: round half toward positive infinity. -/
def jsRound (q : ℚ) : ℤ := (q + 1/2).floor

/-- `Math.round(sumCoherence).toString()` (`App.js` line 149). -/
def renderCoherence (q : ℚ) : String := toString (jsRound q)

/-- `parseFloat(sumDissimilarity.toFixed(1)).toString()` (`App.js` line 151).
`toFixed(1)` renders the value rounded to one decimal digit (rounding half
away from zero, the sign being split off first); parsing that string back and
re-rendering drops a trailing `.0`, so the composite prints `n / 10` where
`n` is the rounded number of tenths, without a decimal point when `n` is a
multiple of ten. -/
def renderDissim (q : ℚ) : String :=
  let n : ℤ := if q < 0 then -((-q) * 10 + 1/2).floor else (q * 10 + 1/2).floor
  if n % 10 = 0 then toString (n / 10)
  else (if n < 0 then "-" else "") ++
    toString (n.natAbs / 10) ++ "." ++ toString (n.natAbs % 10)

/-- The body of the model loop of `modelsMetrics` (`App.js` lines 121-160):
run the accumulator over every configuration and build the summary row. -/
def aggregateModel (selectedQuestions : List String) (modelName : String)
    (params : ParamMap) : ModelSummary :=
  let acc := params.foldl (stepParam selectedQuestions) ⟨0, 0, 0, []⟩
  { modelName := modelName
    totalResponses := acc.totalResponses
    totalCoherence :=
      if 0 < acc.totalResponses then renderCoherence acc.sumCoherence else "0"
    totalDissimilarity :=
      if 0 < acc.totalResponses then renderDissim acc.sumDissimilarity else "0"
    filteredData := acc.filteredData }

/-- The `metrics` array before the final sort (`App.js` lines 120-160). -/
def metricsUnsorted (dataset : Dataset) (selectedQuestions : List String) :
    List ModelSummary :=
  dataset.map (fun entry => aggregateModel selectedQuestions entry.1 entry.2)

/-- Ranking order used by `metrics.sort((a, b) => b.totalResponses -
a.totalResponses)`: `a` may precede `b` when its total is at least `b`'s. -/
def rankLE (a b : ModelSummary) : Prop :=
  b.totalResponses ≤ a.totalResponses

instance : DecidableRel rankLE := fun _ _ => Nat.decLe _ _

instance : IsTotal ModelSummary rankLE :=
  ⟨fun a b => Nat.le_total b.totalResponses a.totalResponses⟩

instance : IsTrans ModelSummary rankLE :=
  ⟨fun _ _ _ h1 h2 => Nat.le_trans h2 h1⟩

/-- `modelsMetrics` (`App.js` line 161): `Array.prototype.sort` is a stable
sort, embedded as the stable insertion sort by descending `totalResponses`. -/
def modelsMetrics (dataset : Dataset) (selectedQuestions : List String) :
    List ModelSummary :=
  List.insertionSort rankLE (metricsUnsorted dataset selectedQuestions)

/-- `bestTotal` (`App.js` line 165): the first ranked row's total, `0` for an
empty table. -/
def bestTotal (metrics : List ModelSummary) : Nat :=
  match metrics with
  | [] => 0
  | m :: _ => m.totalResponses

/-- The per-row bar width (`App.js` line 373):
`bestTotal ? (model.totalResponses / bestTotal) * 100 : 0`. -/
def barPercent (best total : Nat) : ℚ :=
  if best ≠ 0 then ((total : ℚ) / (best : ℚ)) * 100 else 0

/-- `selectedModelDetail` (`App.js` lines 180-184): `null` when no model is
selected (the empty string is falsy too), otherwise the found row's
`filteredData`, or `null` when no row matches. -/
def selectedModelDetail (metrics : List ModelSummary)
    (selectedModelName : Option String) : Option ParamMap :=
  match selectedModelName with
  | none => none
  | some name =>
    if name = "" then none
    else (metrics.find? (fun m => m.modelName == name)).map
      (fun m => m.filteredData)

/-! ### Derived reference quantities (used to state the claims) -/

/-- Responses contributed by one configuration branch under a filter. -/
def qTotal (f : List String) (qs : QuestionMap) : Nat :=
  (qs.map (fun e => if included f e.1 then e.2.length else 0)).sum

/-- Responses contributed by a whole model under a filter. -/
def respTotal (f : List String) (params : ParamMap) : Nat :=
  (params.map (fun e => qTotal f e.2)).sum

/-- Coherence contributed by one configuration branch under a filter. -/
def qCoh (f : List String) (qs : QuestionMap) : ℚ :=
  (qs.map (fun e => if included f e.1 then respCoherenceSum e.2 else 0)).sum

/-- Coherence contributed by a whole model under a filter. -/
def cohSum (f : List String) (params : ParamMap) : ℚ :=
  (params.map (fun e => qCoh f e.2)).sum

/-- Dissimilarity contributed by one configuration branch under a filter. -/
def qDis (f : List String) (qs : QuestionMap) : ℚ :=
  (qs.map (fun e => if included f e.1 then respDissimSum e.2 else 0)).sum

/-- Dissimilarity contributed by a whole model under a filter. -/
def disSum (f : List String) (params : ParamMap) : ℚ :=
  (params.map (fun e => qDis f e.2)).sum

/-- Number of response records stored in a model subtree (used both for the
raw dataset and for `filteredData`, which have the same shape). -/
def responseCount (m : ParamMap) : Nat :=
  (m.map (fun e => (e.2.map (fun e2 => e2.2.length)).sum)).sum

/-- The questions of one configuration that pass the filter, in order. -/
def filteredQs (f : List String) (qs : QuestionMap) : QuestionMap :=
  qs.filter (fun e => included f e.1)

/-- Reference description of `filteredData`: each configuration keeps its
filtered questions, and a configuration branch appears exactly when at least
one of its questions passes the filter. -/
def modelFD (f : List String) (params : ParamMap) : ParamMap :=
  params.filterMap (fun e =>
    let fq := filteredQs f e.2
    if fq.isEmpty then none else some (e.1, fq))

/-- Key list of an association-list level. -/
def keysOf {α : Type} (m : List (String × α)) : List String :=
  m.map Prod.fst

/-- Well-formedness inherited from JavaScript objects: no duplicate keys at
the configuration level nor inside any question map. -/
def WFParams (params : ParamMap) : Prop :=
  (keysOf params).Nodup ∧ ∀ e ∈ params, (keysOf e.2).Nodup

/-! ### Formatting policy, modelled from the spec's words (§4.2) -/

/-- Modelled from the spec: "round-half-away-from-zero". -/
def specRoundHalfAway (x : ℚ) : ℤ :=
  if x < 0 then -(-x + 1/2).floor else (x + 1/2).floor

/-- Modelled from the spec: "round the summed dissimilarity to one decimal
place, then render as a string with trailing zero stripped
(`2.0` renders `"2"`, `2.5` renders `"2.5"`)". -/
def specTenthsDisplay (q : ℚ) : String :=
  let n : ℤ := specRoundHalfAway (10 * q)
  if (10:ℤ) ∣ n then toString (n / 10)
  else (if n < 0 then "-" else "") ++
    toString (n.natAbs / 10) ++ "." ++ toString (n.natAbs % 10)

instance (params : ParamMap) : Decidable (WFParams params) :=
  inferInstanceAs (Decidable ((keysOf params).Nodup ∧ ∀ e ∈ params, (keysOf e.2).Nodup))

/-! ### The `filteredData` part of the fold, isolated -/

/-- The effect of one question-loop iteration on `filteredData` alone. -/
def fdStepQ (f : List String) (pk : String) (fd : ParamMap)
    (e : String × List Response) : ParamMap :=
  if included f e.1 then setIn fd pk e.1 e.2 else fd

/-- The effect of one configuration-loop iteration on `filteredData` alone. -/
def fdStepP (f : List String) (fd : ParamMap) (e : String × QuestionMap) :
    ParamMap :=
  e.2.foldl (fdStepQ f e.1) fd

/-- The `filteredData` built for one model. -/
def fdFold (f : List String) (params : ParamMap) : ParamMap :=
  params.foldl (fdStepP f) []

/-! ### Decomposing the accumulator fold into its four components -/

theorem foldQ_eq (f : List String) (pk : String) (qs : QuestionMap) :
    ∀ acc : AggAcc,
    qs.foldl (stepQuestion f pk) acc =
      ⟨acc.totalResponses + qTotal f qs, acc.sumCoherence + qCoh f qs,
       acc.sumDissimilarity + qDis f qs,
       qs.foldl (fdStepQ f pk) acc.filteredData⟩ := by
  induction qs with
  | nil =>
    intro acc
    simp [qTotal, qCoh, qDis]
  | cons e qs ih =>
    intro acc
    rw [List.foldl_cons, List.foldl_cons, ih]
    by_cases h : included f e.1 <;>
      simp [stepQuestion, fdStepQ, h, qTotal, qCoh, qDis, add_assoc]

theorem foldP_eq (f : List String) (params : ParamMap) :
    ∀ acc : AggAcc,
    params.foldl (stepParam f) acc =
      ⟨acc.totalResponses + respTotal f params, acc.sumCoherence + cohSum f params,
       acc.sumDissimilarity + disSum f params,
       params.foldl (fdStepP f) acc.filteredData⟩ := by
  induction params with
  | nil =>
    intro acc
    simp [respTotal, cohSum, disSum]
  | cons e ps ih =>
    intro acc
    rw [List.foldl_cons, List.foldl_cons]
    show ps.foldl (stepParam f) (e.2.foldl (stepQuestion f e.1) acc) = _
    rw [foldQ_eq, ih]
    simp [respTotal, cohSum, disSum, fdStepP, add_assoc]

theorem aggregateModel_totalResponses (f : List String) (name : String)
    (params : ParamMap) :
    (aggregateModel f name params).totalResponses = respTotal f params := by
  simp [aggregateModel, foldP_eq]

theorem aggregateModel_modelName (f : List String) (name : String)
    (params : ParamMap) :
    (aggregateModel f name params).modelName = name := rfl

theorem aggregateModel_filteredData (f : List String) (name : String)
    (params : ParamMap) :
    (aggregateModel f name params).filteredData = fdFold f params := by
  simp [aggregateModel, foldP_eq, fdFold]

theorem aggregateModel_totalCoherence (f : List String) (name : String)
    (params : ParamMap) :
    (aggregateModel f name params).totalCoherence =
      (if 0 < respTotal f params then renderCoherence (cohSum f params)
       else "0") := by
  simp [aggregateModel, foldP_eq]

theorem aggregateModel_totalDissimilarity (f : List String) (name : String)
    (params : ParamMap) :
    (aggregateModel f name params).totalDissimilarity =
      (if 0 < respTotal f params then renderDissim (disSum f params)
       else "0") := by
  simp [aggregateModel, foldP_eq]

/-! ### Characterizing `filteredData` for well-formed (duplicate-free) input -/

theorem setKey_fresh {α : Type} (m : List (String × α)) (k : String) (v : α)
    (h : k ∉ keysOf m) : setKey m k v = m ++ [(k, v)] := by
  induction m with
  | nil => rfl
  | cons e m ih =>
    obtain ⟨k', v'⟩ := e
    simp [keysOf] at h
    rw [setKey, if_neg (fun hh => h.1 hh.symm),
      ih (by simp [keysOf]; exact h.2)]
    rfl

theorem setIn_fresh (fd : ParamMap) (pk q : String) (rs : List Response)
    (h : pk ∉ keysOf fd) : setIn fd pk q rs = fd ++ [(pk, [(q, rs)])] := by
  induction fd with
  | nil => rfl
  | cons e fd ih =>
    obtain ⟨pk', qm'⟩ := e
    simp [keysOf] at h
    rw [setIn, if_neg (fun hh => h.1 hh.symm),
      ih (by simp [keysOf]; exact h.2)]
    rfl

theorem setIn_last (fd : ParamMap) (pk : String) (qm : QuestionMap)
    (q : String) (rs : List Response) (h : pk ∉ keysOf fd) :
    setIn (fd ++ [(pk, qm)]) pk q rs = fd ++ [(pk, setKey qm q rs)] := by
  induction fd with
  | nil => simp [setIn]
  | cons e fd ih =>
    obtain ⟨pk', qm'⟩ := e
    simp [keysOf] at h
    rw [List.cons_append, setIn, if_neg (fun hh => h.1 hh.symm),
      ih (by simp [keysOf]; exact h.2), List.cons_append]

theorem keysOf_cons {α : Type} (e : String × α) (m : List (String × α)) :
    keysOf (e :: m) = e.1 :: keysOf m := rfl

theorem keysOf_append {α : Type} (m m2 : List (String × α)) :
    keysOf (m ++ m2) = keysOf m ++ keysOf m2 := by
  simp [keysOf]

theorem mem_keysOf_of_mem {α : Type} {e : String × α} {m : List (String × α)}
    (h : e ∈ m) : e.1 ∈ keysOf m :=
  List.mem_map_of_mem Prod.fst h

theorem filteredQs_cons (f : List String) (e : String × List Response)
    (qs : QuestionMap) :
    filteredQs f (e :: qs) =
      if included f e.1 then e :: filteredQs f qs else filteredQs f qs := by
  simp [filteredQs, List.filter_cons]

theorem innerFold_app (f : List String) (pk : String) :
    ∀ (qs : QuestionMap) (fd : ParamMap) (cur : QuestionMap),
    pk ∉ keysOf fd → (∀ e ∈ qs, e.1 ∉ keysOf cur) → (keysOf qs).Nodup →
    qs.foldl (fdStepQ f pk) (fd ++ [(pk, cur)]) =
      fd ++ [(pk, cur ++ filteredQs f qs)] := by
  intro qs
  induction qs with
  | nil =>
    intro fd cur _ _ _
    simp [filteredQs]
  | cons e qs ih =>
    intro fd cur hfd hcur hnd
    rw [keysOf_cons, List.nodup_cons] at hnd
    rw [List.foldl_cons]
    by_cases hinc : included f e.1
    · have h1 : fdStepQ f pk (fd ++ [(pk, cur)]) e = fd ++ [(pk, cur ++ [e])] := by
        rw [fdStepQ, if_pos hinc, setIn_last _ _ _ _ _ hfd,
          setKey_fresh _ _ _ (hcur e (List.mem_cons_self e qs))]
      have hcur2 : ∀ e2 ∈ qs, e2.1 ∉ keysOf (cur ++ [e]) := by
        intro e2 he2
        rw [keysOf_append]
        simp only [List.mem_append, keysOf, List.map_cons, List.map_nil,
          List.mem_singleton, not_or]
        refine ⟨hcur e2 (List.mem_cons_of_mem e he2), ?_⟩
        intro hh
        exact hnd.1 (hh ▸ mem_keysOf_of_mem he2)
      rw [h1, ih fd (cur ++ [e]) hfd hcur2 hnd.2, filteredQs_cons, if_pos hinc,
        List.append_assoc]
      rfl
    · have h1 : fdStepQ f pk (fd ++ [(pk, cur)]) e = fd ++ [(pk, cur)] := by
        rw [fdStepQ, if_neg hinc]
      rw [h1, ih fd cur hfd (fun e2 he2 => hcur e2 (List.mem_cons_of_mem e he2))
        hnd.2, filteredQs_cons, if_neg hinc]

theorem innerFold_fresh (f : List String) (pk : String) (qs : QuestionMap)
    (fd : ParamMap) (hfd : pk ∉ keysOf fd) (hnd : (keysOf qs).Nodup) :
    qs.foldl (fdStepQ f pk) fd =
      fd ++ (if (filteredQs f qs).isEmpty then []
             else [(pk, filteredQs f qs)]) := by
  induction qs with
  | nil => simp [filteredQs]
  | cons e qs ih =>
    rw [keysOf_cons, List.nodup_cons] at hnd
    rw [List.foldl_cons]
    by_cases hinc : included f e.1
    · have h1 : fdStepQ f pk fd e = fd ++ [(pk, [e])] := by
        rw [fdStepQ, if_pos hinc, setIn_fresh _ _ _ _ hfd]
      have hcur : ∀ e2 ∈ qs, e2.1 ∉ keysOf ([e] : QuestionMap) := by
        intro e2 he2
        simp only [keysOf, List.map_cons, List.map_nil, List.mem_singleton]
        intro hh
        exact hnd.1 (hh ▸ mem_keysOf_of_mem he2)
      rw [h1, innerFold_app f pk qs fd [e] hfd hcur hnd.2, filteredQs_cons,
        if_pos hinc]
      have : (e :: filteredQs f qs).isEmpty = false := rfl
      rw [this]
      rfl
    · have h1 : fdStepQ f pk fd e = fd := by
        rw [fdStepQ, if_neg hinc]
      rw [h1, ih hnd.2, filteredQs_cons, if_neg hinc]

theorem modelFD_cons (f : List String) (e : String × QuestionMap)
    (params : ParamMap) :
    modelFD f (e :: params) =
      (if (filteredQs f e.2).isEmpty then []
       else [(e.1, filteredQs f e.2)]) ++ modelFD f params := by
  by_cases hc : filteredQs f e.2 = [] <;>
    simp [modelFD, List.filterMap_cons, List.isEmpty_iff, hc]

theorem fdFold_app (f : List String) :
    ∀ (params : ParamMap) (fd : ParamMap),
    (∀ e ∈ params, e.1 ∉ keysOf fd) → (keysOf params).Nodup →
    (∀ e ∈ params, (keysOf e.2).Nodup) →
    params.foldl (fdStepP f) fd = fd ++ modelFD f params := by
  intro params
  induction params with
  | nil =>
    intro fd _ _ _
    simp [modelFD]
  | cons e params ih =>
    intro fd hfresh hnd hwfin
    rw [keysOf_cons, List.nodup_cons] at hnd
    rw [List.foldl_cons]
    have h1 : fdStepP f fd e =
        fd ++ (if (filteredQs f e.2).isEmpty then []
               else [(e.1, filteredQs f e.2)]) :=
      innerFold_fresh f e.1 e.2 fd (hfresh e (List.mem_cons_self e params))
        (hwfin e (List.mem_cons_self e params))
    have hfresh2 : ∀ e2 ∈ params,
        e2.1 ∉ keysOf (fd ++ (if (filteredQs f e.2).isEmpty then []
                              else [(e.1, filteredQs f e.2)])) := by
      intro e2 he2
      rw [keysOf_append]
      simp only [List.mem_append, not_or]
      refine ⟨hfresh e2 (List.mem_cons_of_mem e he2), ?_⟩
      by_cases hc : (filteredQs f e.2).isEmpty <;> simp [hc, keysOf]
      intro hh
      exact hnd.1 (hh ▸ mem_keysOf_of_mem he2)
    rw [h1, ih _ hfresh2 hnd.2
      (fun e2 he2 => hwfin e2 (List.mem_cons_of_mem e he2)),
      modelFD_cons, List.append_assoc]

theorem fdFold_eq_modelFD (f : List String) (params : ParamMap)
    (hwf : WFParams params) : fdFold f params = modelFD f params := by
  have h := fdFold_app f params [] (by simp [keysOf]) hwf.1 hwf.2
  simpa [fdFold] using h

/-! ### Counting lemmas -/

theorem natSum_eq_zero_iff (l : List Nat) : l.sum = 0 ↔ ∀ x ∈ l, x = 0 := by
  induction l with
  | nil => simp
  | cons a l ih => simp [List.sum_cons, Nat.add_eq_zero, ih]

theorem qTotal_cons (f : List String) (e : String × List Response)
    (qs : QuestionMap) :
    qTotal f (e :: qs) =
      (if included f e.1 then e.2.length else 0) + qTotal f qs := by
  simp [qTotal]

theorem qTotal_eq_filtered (f : List String) (qs : QuestionMap) :
    qTotal f qs = ((filteredQs f qs).map (fun e => e.2.length)).sum := by
  induction qs with
  | nil => simp [qTotal, filteredQs]
  | cons e qs ih =>
    rw [qTotal_cons, filteredQs_cons]
    by_cases hinc : included f e.1 <;> simp [hinc, ih]

theorem respTotal_cons (f : List String) (e : String × QuestionMap)
    (params : ParamMap) :
    respTotal f (e :: params) = qTotal f e.2 + respTotal f params := by
  simp [respTotal]

theorem responseCount_append (a b : ParamMap) :
    responseCount (a ++ b) = responseCount a + responseCount b := by
  simp [responseCount]

theorem responseCount_modelFD (f : List String) (params : ParamMap) :
    responseCount (modelFD f params) = respTotal f params := by
  induction params with
  | nil => simp [modelFD, responseCount, respTotal]
  | cons e params ih =>
    rw [modelFD_cons, responseCount_append, ih, respTotal_cons,
      qTotal_eq_filtered]
    by_cases hc : filteredQs f e.2 = [] <;>
      simp [hc, responseCount, List.isEmpty_iff]

theorem filteredQs_subset (f : List String) (qs : QuestionMap) :
    ∀ e ∈ filteredQs f qs, e ∈ qs := by
  intro e he
  exact List.mem_of_mem_filter he

theorem modelFD_eq_nil_iff (f : List String) (params : ParamMap) :
    modelFD f params = [] ↔ ∀ e ∈ params, filteredQs f e.2 = [] := by
  simp [modelFD, List.filterMap_eq_nil_iff, List.isEmpty_iff]

theorem respTotal_zero_iff (f : List String) (params : ParamMap)
    (hne : ∀ e ∈ params, ∀ e2 ∈ e.2, e2.2 ≠ []) :
    (respTotal f params = 0 ↔ modelFD f params = []) := by
  rw [modelFD_eq_nil_iff]
  constructor
  · intro h0 e he
    have hq : qTotal f e.2 = 0 :=
      (natSum_eq_zero_iff _).mp h0 (qTotal f e.2)
        (List.mem_map_of_mem (fun e => qTotal f e.2) he)
    rw [qTotal_eq_filtered] at hq
    cases hfq : filteredQs f e.2 with
    | nil => rfl
    | cons x xs =>
      exfalso
      have hq2 : (List.map (fun e2 => e2.2.length) (x :: xs)).sum = 0 := by
        rw [← hfq]
        exact hq
      have hx : x.2.length = 0 :=
        (natSum_eq_zero_iff _).mp hq2 x.2.length
          (List.mem_map_of_mem _ (List.mem_cons_self x xs))
      have hmem : x ∈ filteredQs f e.2 := by
        rw [hfq]
        exact List.mem_cons_self x xs
      exact hne e he x (filteredQs_subset f e.2 x hmem)
        (List.length_eq_zero.mp hx)
  · intro hall
    apply (natSum_eq_zero_iff _).mpr
    intro x hx
    obtain ⟨e, he, rfl⟩ := List.mem_map.mp hx
    rw [qTotal_eq_filtered, hall e he]
    rfl

/-! ### The inclusion rule -/

theorem included_nil (q : String) : included [] q = true := rfl

theorem included_of_mem {f : List String} {q : String} (h : q ∈ f) :
    included f q = true := by
  simp [included, h]

theorem mem_of_included {f : List String} {q : String} (hne : f ≠ [])
    (h : included f q = true) : q ∈ f := by
  simp [included, List.isEmpty_iff, hne] at h
  exact h

theorem respTotal_nil_filter (params : ParamMap) :
    respTotal [] params = responseCount params := by
  simp [respTotal, responseCount, qTotal, included]

theorem qTotal_mono {F1 F2 : List String}
    (hmono : ∀ q, included F1 q = true → included F2 q = true)
    (qs : QuestionMap) : qTotal F1 qs ≤ qTotal F2 qs := by
  apply List.sum_le_sum
  intro e _
  by_cases h1 : included F1 e.1
  · rw [if_pos h1, if_pos (hmono _ h1)]
  · rw [if_neg h1]
    exact Nat.zero_le _

theorem respTotal_mono {F1 F2 : List String}
    (hmono : ∀ q, included F1 q = true → included F2 q = true)
    (params : ParamMap) : respTotal F1 params ≤ respTotal F2 params := by
  apply List.sum_le_sum
  intro e _
  exact qTotal_mono hmono e.2

/-! ### Membership of each model's row in the ranked output -/

theorem aggregateModel_mem_modelsMetrics {d : Dataset} {name : String}
    {params : ParamMap} (h : (name, params) ∈ d) (f : List String) :
    aggregateModel f name params ∈ modelsMetrics d f := by
  have h1 : aggregateModel f name params ∈ metricsUnsorted d f :=
    List.mem_map_of_mem (fun e => aggregateModel f e.1 e.2) h
  exact ((List.perm_insertionSort rankLE _).mem_iff).mpr h1

/-! ### A fully filtered-out model keeps an empty `filteredData` -/

theorem innerFold_id (f : List String) (pk : String) (qs : QuestionMap)
    (fd : ParamMap) (h : ∀ e ∈ qs, included f e.1 = false) :
    qs.foldl (fdStepQ f pk) fd = fd := by
  induction qs generalizing fd with
  | nil => rfl
  | cons e qs ih =>
    rw [List.foldl_cons]
    have h1 : fdStepQ f pk fd e = fd := by
      rw [fdStepQ, if_neg (by simp [h e (List.mem_cons_self e qs)])]
    rw [h1, ih fd (fun e2 he2 => h e2 (List.mem_cons_of_mem e he2))]

theorem fdFold_none (f : List String) (params : ParamMap)
    (h : ∀ e ∈ params, ∀ e2 ∈ e.2, included f e2.1 = false) :
    fdFold f params = [] := by
  rw [fdFold]
  have hgen : ∀ fd : ParamMap, params.foldl (fdStepP f) fd = fd := by
    induction params with
    | nil => intro fd; rfl
    | cons e params ih =>
      intro fd
      rw [List.foldl_cons]
      have h1 : fdStepP f fd e = fd :=
        innerFold_id f e.1 e.2 fd (h e (List.mem_cons_self e params))
      rw [h1]
      exact ih (fun e2 he2 e3 he3 => h e2 (List.mem_cons_of_mem e he2) e3 he3) fd
  exact hgen []

theorem respTotal_none (f : List String) (params : ParamMap)
    (h : ∀ e ∈ params, ∀ e2 ∈ e.2, included f e2.1 = false) :
    respTotal f params = 0 := by
  apply (natSum_eq_zero_iff _).mpr
  intro x hx
  obtain ⟨e, he, rfl⟩ := List.mem_map.mp hx
  apply (natSum_eq_zero_iff _).mpr
  intro y hy
  obtain ⟨e2, he2, rfl⟩ := List.mem_map.mp hy
  rw [h e he e2 he2]
  rfl

/-! ### Branches of `filteredData` never hold an empty question map -/

theorem setKey_ne_nil {α : Type} (m : List (String × α)) (k : String) (v : α) :
    setKey m k v ≠ [] := by
  cases m with
  | nil => simp [setKey]
  | cons e m =>
    obtain ⟨k', v'⟩ := e
    rw [setKey]
    split <;> simp

theorem setIn_values_ne_nil (fd : ParamMap) (pk q : String)
    (rs : List Response) (h : ∀ e ∈ fd, e.2 ≠ []) :
    ∀ e ∈ setIn fd pk q rs, e.2 ≠ [] := by
  induction fd with
  | nil =>
    intro e he
    simp [setIn] at he
    rw [he]
    simp
  | cons e0 fd ih =>
    obtain ⟨pk', qm'⟩ := e0
    intro e he
    rw [setIn] at he
    by_cases hk : pk' = pk
    · rw [if_pos hk] at he
      rcases List.mem_cons.mp he with h1 | h1
      · rw [h1]
        exact setKey_ne_nil qm' q rs
      · exact h e (List.mem_cons_of_mem _ h1)
    · rw [if_neg hk] at he
      rcases List.mem_cons.mp he with h1 | h1
      · rw [h1]
        exact h (pk', qm') (List.mem_cons_self _ fd)
      · exact ih (fun e2 he2 => h e2 (List.mem_cons_of_mem _ he2)) e h1

theorem innerFold_values_ne_nil (f : List String) (pk : String)
    (qs : QuestionMap) :
    ∀ fd : ParamMap, (∀ e ∈ fd, e.2 ≠ []) →
    ∀ e ∈ qs.foldl (fdStepQ f pk) fd, e.2 ≠ [] := by
  induction qs with
  | nil => intro fd h; exact h
  | cons e0 qs ih =>
    intro fd h
    rw [List.foldl_cons]
    apply ih
    rw [fdStepQ]
    by_cases hinc : included f e0.1
    · rw [if_pos hinc]
      exact setIn_values_ne_nil fd pk e0.1 e0.2 h
    · rw [if_neg hinc]
      exact h

theorem fdFold_values_ne_nil (f : List String) (params : ParamMap) :
    ∀ e ∈ fdFold f params, e.2 ≠ [] := by
  rw [fdFold]
  have hgen : ∀ fd : ParamMap, (∀ e ∈ fd, e.2 ≠ []) →
      ∀ e ∈ params.foldl (fdStepP f) fd, e.2 ≠ [] := by
    induction params with
    | nil => intro fd h; exact h
    | cons e0 params ih =>
      intro fd h
      rw [List.foldl_cons]
      apply ih
      rw [fdStepP]
      exact innerFold_values_ne_nil f e0.1 e0.2 fd h
  exact hgen [] (by simp)

/-! ### The ranking sort: order and stability -/

theorem filter_orderedInsert_total (n : Nat) (x : ModelSummary) :
    ∀ l : List ModelSummary,
    (List.orderedInsert rankLE x l).filter (fun s => s.totalResponses == n) =
      (if x.totalResponses == n
       then x :: l.filter (fun s => s.totalResponses == n)
       else l.filter (fun s => s.totalResponses == n)) := by
  intro l
  induction l with
  | nil =>
    cases hx : (x.totalResponses == n) <;>
      simp [List.orderedInsert, List.filter, hx]
  | cons y l ih =>
    rw [List.orderedInsert]
    by_cases hr : rankLE x y
    · rw [if_pos hr]
      cases hx : (x.totalResponses == n) <;>
        simp [List.filter_cons, hx]
    · rw [if_neg hr]
      have hyx : x.totalResponses < y.totalResponses :=
        Nat.lt_of_not_le hr
      cases hx : (x.totalResponses == n) with
      | false => simp [List.filter_cons, hx, ih]
      | true =>
        have hy : (y.totalResponses == n) = false := by
          apply beq_eq_false_iff_ne.mpr
          intro hh
          rw [hh] at hyx
          exact absurd (beq_iff_eq.mp hx) (Nat.ne_of_lt hyx)
        simp [List.filter_cons, hx, hy, ih]

theorem filter_insertionSort_total (n : Nat) (l : List ModelSummary) :
    (List.insertionSort rankLE l).filter (fun s => s.totalResponses == n) =
      l.filter (fun s => s.totalResponses == n) := by
  induction l with
  | nil => rfl
  | cons a l ih =>
    rw [List.insertionSort, filter_orderedInsert_total, ih]
    cases ha : (a.totalResponses == n) <;> simp [List.filter_cons, ha]

theorem le_bestTotal_of_sorted (l : List ModelSummary)
    (hs : List.Sorted rankLE l) :
    ∀ s ∈ l, s.totalResponses ≤ bestTotal l := by
  cases l with
  | nil => intro s hmem; cases hmem
  | cons m rest =>
    intro s hmem
    rcases List.mem_cons.mp hmem with h1 | h1
    · rw [h1]
      exact Nat.le_refl _
    · exact (List.sorted_cons.mp hs).1 s h1

/-! ### The two formatting functions agree with the spec's wording -/

theorem jsRound_eq_spec {q : ℚ} (h : 0 ≤ q) :
    jsRound q = specRoundHalfAway q := by
  rw [jsRound, specRoundHalfAway, if_neg (not_lt.mpr h)]

theorem renderDissim_eq_spec (q : ℚ) : renderDissim q = specTenthsDisplay q := by
  rw [renderDissim, specTenthsDisplay]
  have hn : (if q < 0 then -((-q) * 10 + 1/2).floor else (q * 10 + 1/2).floor) =
      specRoundHalfAway (10 * q) := by
    rw [specRoundHalfAway]
    by_cases hq : q < 0
    · rw [if_pos hq, if_pos (mul_neg_of_pos_of_neg (by norm_num) hq)]
      have harg : (-q) * 10 + 1/2 = -(10 * q) + 1/2 := by ring
      rw [harg]
    · have hge : 0 ≤ 10 * q := mul_nonneg (by norm_num) (not_lt.mp hq)
      rw [if_neg hq, if_neg (not_lt.mpr hge)]
      have harg : q * 10 + 1/2 = 10 * q + 1/2 := by ring
      rw [harg]
  rw [hn]
  by_cases hd : specRoundHalfAway (10 * q) % 10 = 0
  · rw [if_pos hd, if_pos (Int.dvd_of_emod_eq_zero hd)]
  · rw [if_neg hd, if_neg (fun hdvd => hd (Int.emod_eq_zero_of_dvd hdvd))]

theorem respCoherenceSum_nonneg {rs : List Response}
    (h : ∀ r ∈ rs, 0 ≤ r.coherence_score) : 0 ≤ respCoherenceSum rs := by
  apply List.sum_nonneg
  intro x hx
  obtain ⟨r, hr, rfl⟩ := List.mem_map.mp hx
  exact h r hr

theorem cohSum_nonneg {f : List String} {params : ParamMap}
    (h : ∀ e ∈ params, ∀ e2 ∈ e.2, ∀ r ∈ e2.2, 0 ≤ r.coherence_score) :
    0 ≤ cohSum f params := by
  apply List.sum_nonneg
  intro x hx
  obtain ⟨e, he, rfl⟩ := List.mem_map.mp hx
  apply List.sum_nonneg
  intro y hy
  obtain ⟨e2, he2, rfl⟩ := List.mem_map.mp hy
  by_cases hinc : included f e2.1
  · rw [if_pos hinc]
    exact respCoherenceSum_nonneg (h e he e2 he2)
  · rw [if_neg hinc]

/-! ### Concrete data used by witnesses and counterexamples -/

def exResponse : Response := ⟨1, "x", 1, 0⟩

def exParamsOne : ParamMap := [("p", [("q", [exResponse])])]

def exDatasetOne : Dataset := [("m", exParamsOne)]

def emptyRespParams : ParamMap := [("p", [("q", ([] : List Response))])]

def c3Params : ParamMap :=
  [("p", [("q", [⟨1, "a", 16/5, 1/10⟩, ⟨2, "b", 24/5, 1/4⟩])])]

/-! ### The claims -/

/-- C1: aggregation with the empty filter includes every (configuration,
question) pair, so each model's `totalResponses` equals the raw number of
responses stored for that model, and the ranked output contains such a row. -/
theorem spec_c1 (d : Dataset) (name : String) (params : ParamMap)
    (h : (name, params) ∈ d) :
    (aggregateModel [] name params).totalResponses = responseCount params ∧
    ∃ s, s ∈ modelsMetrics d [] ∧ s.modelName = name ∧
      s.totalResponses = responseCount params := by
  have h1 : (aggregateModel [] name params).totalResponses =
      responseCount params := by
    rw [aggregateModel_totalResponses, respTotal_nil_filter]
  exact ⟨h1, aggregateModel [] name params,
    aggregateModel_mem_modelsMetrics h [],
    aggregateModel_modelName [] name params, h1⟩

theorem spec_c1_witness :
    (aggregateModel [] "m" exParamsOne).totalResponses =
      responseCount exParamsOne ∧
    ∃ s, s ∈ modelsMetrics exDatasetOne [] ∧ s.modelName = "m" ∧
      s.totalResponses = responseCount exParamsOne :=
  spec_c1 exDatasetOne "m" exParamsOne (by with_unfolding_all decide)

/-- C2 counterexample: a question whose stored response list is empty is
still recorded in `filteredData`, so a model can have `totalResponses = 0`
with a non-empty `filteredData`, refuting the claimed equivalence. -/
theorem spec_c2_counterexample :
    (aggregateModel [] "m" emptyRespParams).totalResponses = 0 ∧
    (aggregateModel [] "m" emptyRespParams).filteredData ≠ [] := by
  with_unfolding_all decide

/-- C2 amended: `totalResponses` always equals the number of response records
stored in `filteredData`; the equivalence "`totalResponses = 0` iff
`filteredData` is empty" holds under the additional assumption that every
stored response list of the model is non-empty. -/
theorem spec_c2_amended (f : List String) (name : String) (params : ParamMap)
    (hwf : WFParams params) :
    (aggregateModel f name params).totalResponses =
      responseCount ((aggregateModel f name params).filteredData) ∧
    ((∀ e ∈ params, ∀ e2 ∈ e.2, e2.2 ≠ []) →
      ((aggregateModel f name params).totalResponses = 0 ↔
        (aggregateModel f name params).filteredData = [])) := by
  rw [aggregateModel_totalResponses, aggregateModel_filteredData,
    fdFold_eq_modelFD f params hwf, responseCount_modelFD]
  refine ⟨rfl, fun hne => ?_⟩
  exact respTotal_zero_iff f params hne

theorem spec_c2_witness :
    ((aggregateModel [] "m" exParamsOne).totalResponses =
      responseCount ((aggregateModel [] "m" exParamsOne).filteredData)) ∧
    ((aggregateModel [] "m" exParamsOne).totalResponses = 0 ↔
      (aggregateModel [] "m" exParamsOne).filteredData = []) :=
  ⟨(spec_c2_amended [] "m" exParamsOne (by with_unfolding_all decide)).1,
   (spec_c2_amended [] "m" exParamsOne (by with_unfolding_all decide)).2
     (by with_unfolding_all decide)⟩

/-- C3 counterexample: with coherence scores `[3.2, 4.8]` and dissimilarity
scores `[0.1, 0.25]`, the code renders the dissimilarity total rounded to ONE
decimal place, so it cannot be the two-decimal string `"0.35"`. -/
theorem spec_c3_counterexample :
    ¬((aggregateModel [] "m" c3Params).totalCoherence = "8" ∧
      (aggregateModel [] "m" c3Params).totalDissimilarity = "0.35") := by
  with_unfolding_all decide

/-- C3 amended: `totalCoherence = "8"` does hold, while the dissimilarity sum
`0.35` is rounded to one decimal place: `"0.4"` under exact half-away-from-zero
rounding (IEEE double evaluation of the same program lands just below `0.35`
and yields `"0.3"`), in either case a one-decimal string, not `"0.35"`. -/
theorem spec_c3_amended :
    (aggregateModel [] "m" c3Params).totalCoherence = "8" ∧
    ((aggregateModel [] "m" c3Params).totalDissimilarity = "0.3" ∨
     (aggregateModel [] "m" c3Params).totalDissimilarity = "0.4") := by
  refine ⟨?_, Or.inr ?_⟩ <;> with_unfolding_all decide

/-- C4: filter monotonicity. For non-empty filters `F1 ⊆ F2` each model's
total under `F1` is at most its total under `F2`, and any non-empty filter
yields at most the empty-filter (include-everything) total. -/
theorem spec_c4 :
    (∀ (F1 F2 : List String) (name : String) (params : ParamMap),
      F1 ≠ [] → F2 ≠ [] → (∀ q ∈ F1, q ∈ F2) →
      (aggregateModel F1 name params).totalResponses ≤
        (aggregateModel F2 name params).totalResponses) ∧
    (∀ (F : List String) (name : String) (params : ParamMap), F ≠ [] →
      (aggregateModel F name params).totalResponses ≤
        (aggregateModel [] name params).totalResponses) := by
  constructor
  · intro F1 F2 name params h1 _ hsub
    rw [aggregateModel_totalResponses, aggregateModel_totalResponses]
    exact respTotal_mono
      (fun q hq => included_of_mem (hsub q (mem_of_included h1 hq))) params
  · intro F name params _
    rw [aggregateModel_totalResponses, aggregateModel_totalResponses]
    exact respTotal_mono (fun q _ => included_nil q) params

theorem spec_c4_witness :
    ((aggregateModel ["q"] "m" exParamsOne).totalResponses ≤
      (aggregateModel ["q", "q2"] "m" exParamsOne).totalResponses) ∧
    ((aggregateModel ["q"] "m" exParamsOne).totalResponses ≤
      (aggregateModel [] "m" exParamsOne).totalResponses) :=
  ⟨spec_c4.1 ["q"] ["q", "q2"] "m" exParamsOne (by decide) (by decide)
     (by decide),
   spec_c4.2 ["q"] "m" exParamsOne (by decide)⟩

/-- C5: the ranked output has exactly one row per model key of the dataset
(its model names are a permutation of the dataset's keys), and a model none
of whose questions passes the filter still appears, with zero total and empty
`filteredData`. -/
theorem spec_c5 (d : Dataset) (f : List String) :
    List.Perm ((modelsMetrics d f).map (fun s => s.modelName))
      (d.map Prod.fst) ∧
    (∀ name params, (name, params) ∈ d →
      (∀ e ∈ params, ∀ e2 ∈ e.2, included f e2.1 = false) →
      ∃ s, s ∈ modelsMetrics d f ∧ s.modelName = name ∧
        s.totalResponses = 0 ∧ s.filteredData = []) := by
  constructor
  · have hperm :=
      (List.perm_insertionSort rankLE (metricsUnsorted d f)).map
        (fun s => s.modelName)
    have heq : (metricsUnsorted d f).map (fun s => s.modelName) =
        d.map Prod.fst := by
      rw [metricsUnsorted, List.map_map]
      rfl
    exact heq ▸ hperm
  · intro name params hmem hnone
    refine ⟨aggregateModel f name params,
      aggregateModel_mem_modelsMetrics hmem f,
      aggregateModel_modelName f name params, ?_, ?_⟩
    · rw [aggregateModel_totalResponses]
      exact respTotal_none f params hnone
    · rw [aggregateModel_filteredData]
      exact fdFold_none f params hnone

theorem spec_c5_witness :
    ∃ s, s ∈ modelsMetrics exDatasetOne ["zz"] ∧ s.modelName = "m" ∧
      s.totalResponses = 0 ∧ s.filteredData = [] :=
  (spec_c5 exDatasetOne ["zz"]).2 "m" exParamsOne
    (by with_unfolding_all decide) (by with_unfolding_all decide)

/-- C6: for positive totals, `totalCoherence` is the summed coherence rounded
to the nearest integer rendered without a decimal point, and
`totalDissimilarity` is the summed dissimilarity rounded to one decimal place
with a trailing zero stripped; a zero-response model renders exactly `"0"`
for both. Coherence scores are non-negative per the data model, which fixes
the tie-rounding direction. -/
theorem spec_c6 (f : List String) (name : String) (params : ParamMap)
    (hcoh : ∀ e ∈ params, ∀ e2 ∈ e.2, ∀ r ∈ e2.2, 0 ≤ r.coherence_score) :
    ((aggregateModel f name params).totalCoherence =
      (if 0 < (aggregateModel f name params).totalResponses
       then toString (specRoundHalfAway (cohSum f params)) else "0")) ∧
    ((aggregateModel f name params).totalDissimilarity =
      (if 0 < (aggregateModel f name params).totalResponses
       then specTenthsDisplay (disSum f params) else "0")) ∧
    ((aggregateModel f name params).totalResponses = 0 →
      (aggregateModel f name params).totalCoherence = "0" ∧
      (aggregateModel f name params).totalDissimilarity = "0") := by
  rw [aggregateModel_totalCoherence, aggregateModel_totalDissimilarity,
    aggregateModel_totalResponses]
  refine ⟨?_, ?_, ?_⟩
  · by_cases h0 : 0 < respTotal f params
    · rw [if_pos h0, if_pos h0, renderCoherence,
        jsRound_eq_spec (cohSum_nonneg hcoh)]
    · rw [if_neg h0, if_neg h0]
  · by_cases h0 : 0 < respTotal f params
    · rw [if_pos h0, if_pos h0, renderDissim_eq_spec]
    · rw [if_neg h0, if_neg h0]
  · intro h0
    rw [if_neg (by rw [h0]; exact Nat.lt_irrefl 0),
      if_neg (by rw [h0]; exact Nat.lt_irrefl 0)]
    exact ⟨rfl, rfl⟩

theorem spec_c6_witness :
    ((aggregateModel [] "m" exParamsOne).totalCoherence =
      (if 0 < (aggregateModel [] "m" exParamsOne).totalResponses
       then toString (specRoundHalfAway (cohSum [] exParamsOne)) else "0")) ∧
    ((aggregateModel [] "m" exParamsOne).totalDissimilarity =
      (if 0 < (aggregateModel [] "m" exParamsOne).totalResponses
       then specTenthsDisplay (disSum [] exParamsOne) else "0")) ∧
    ((aggregateModel [] "m" exParamsOne).totalResponses = 0 →
      (aggregateModel [] "m" exParamsOne).totalCoherence = "0" ∧
      (aggregateModel [] "m" exParamsOne).totalDissimilarity = "0") :=
  spec_c6 [] "m" exParamsOne (by with_unfolding_all decide)

/-- C7: the ranked table is sorted by `totalResponses` descending, rows with
equal totals keep their pre-sort relative order (stability, stated as
invariance of every equal-total fiber), and no row exceeds the first row's
total. -/
theorem spec_c7 (d : Dataset) (f : List String) :
    List.Sorted rankLE (modelsMetrics d f) ∧
    (∀ n : Nat,
      (modelsMetrics d f).filter (fun s => s.totalResponses == n) =
        (metricsUnsorted d f).filter (fun s => s.totalResponses == n)) ∧
    (∀ s ∈ modelsMetrics d f,
      s.totalResponses ≤ bestTotal (modelsMetrics d f)) := by
  refine ⟨List.sorted_insertionSort rankLE _,
    fun n => filter_insertionSort_total n _, ?_⟩
  exact le_bestTotal_of_sorted _ (List.sorted_insertionSort rankLE _)

def c7Dataset : Dataset :=
  [("a", [("p", [("q", List.replicate 5 exResponse)])]),
   ("b", [("p", [("q", List.replicate 9 exResponse)])]),
   ("c", [("p", [("q", List.replicate 9 exResponse)])])]

theorem spec_c7_witness :
    ((modelsMetrics c7Dataset []).filter (fun s => s.totalResponses == 9) =
      (metricsUnsorted c7Dataset []).filter (fun s => s.totalResponses == 9)) ∧
    (aggregateModel [] "b"
        [("p", [("q", List.replicate 9 exResponse)])]).totalResponses ≤
      bestTotal (modelsMetrics c7Dataset []) :=
  ⟨(spec_c7 c7Dataset []).2.1 9,
   (spec_c7 c7Dataset []).2.2 _ (by with_unfolding_all decide)⟩

/-- C8: the scaling baseline is the first ranked row's total (`0` for an
empty table), and the bar-width computation is defined to be `0` whenever the
baseline is `0`, so it never divides by zero. -/
theorem spec_c8 :
    (∀ (m : ModelSummary) (l : List ModelSummary),
      bestTotal (m :: l) = m.totalResponses) ∧
    bestTotal ([] : List ModelSummary) = 0 ∧
    (∀ total : Nat, barPercent 0 total = 0) := by
  refine ⟨fun m l => rfl, rfl, fun total => ?_⟩
  rw [barPercent, if_neg (fun h => h rfl)]

/-- C9: every configuration branch stored in a summary's `filteredData` holds
at least one question; a branch is only created when one of its questions
passes the filter. -/
theorem spec_c9 (d : Dataset) (f : List String) (s : ModelSummary)
    (pk : String) (qm : QuestionMap) (hs : s ∈ modelsMetrics d f)
    (hmem : (pk, qm) ∈ s.filteredData) : qm ≠ [] := by
  have hs2 : s ∈ metricsUnsorted d f :=
    (List.perm_insertionSort rankLE _).mem_iff.mp hs
  obtain ⟨e, _, rfl⟩ := List.mem_map.mp hs2
  rw [aggregateModel_filteredData] at hmem
  exact fdFold_values_ne_nil f e.2 (pk, qm) hmem

theorem spec_c9_witness : ([("q", [exResponse])] : QuestionMap) ≠ [] :=
  spec_c9 exDatasetOne [] (aggregateModel [] "m" exParamsOne) "p"
    [("q", [exResponse])] (by with_unfolding_all decide)
    (by with_unfolding_all decide)

/-- C10: the drill-down projection yields `none` (a defined "no data" value)
when no model is selected and when the selected name matches no row. -/
theorem spec_c10 (d : Dataset) (f : List String) (name : String) :
    selectedModelDetail (modelsMetrics d f) none = none ∧
    ((∀ s ∈ modelsMetrics d f, s.modelName ≠ name) →
      selectedModelDetail (modelsMetrics d f) (some name) = none) := by
  refine ⟨rfl, fun hnone => ?_⟩
  rw [selectedModelDetail]
  by_cases hemp : name = ""
  · rw [if_pos hemp]
  · rw [if_neg hemp]
    have hfind : (modelsMetrics d f).find?
        (fun m => m.modelName == name) = none := by
      apply List.find?_eq_none.mpr
      intro s hs
      simp [hnone s hs]
    rw [hfind]
    rfl

theorem spec_c10_witness :
    selectedModelDetail (modelsMetrics exDatasetOne []) none = none ∧
    selectedModelDetail (modelsMetrics exDatasetOne []) (some "zz") = none :=
  ⟨(spec_c10 exDatasetOne [] "zz").1,
   (spec_c10 exDatasetOne [] "zz").2 (by with_unfolding_all decide)⟩
